/-
  Verification of the anchor-based documentation insertion pipeline
  (generate_docs.py, class Lich5DocumentationGenerator).

  The Python source is shallowly embedded: strings are Lean `String`
  (manipulated through their `List Char` data), machine integers are `Nat`/`Int`
  with explicit masking where overflow matters, and fallible code returns
  `Option`/`Except`.  Each definition carries a comment naming the Python
  function or fragment it embeds.
-/
import Mathlib

set_option maxRecDepth 100000

namespace Lich5

/-! ## Python string primitives

Models of the Python `str` operations used by `generate_docs.py`, over
`List Char`.  Python whitespace (for `str.strip`, `str.split`, regex `\s`)
is restricted to its ASCII subset, which covers every input in this
development. -/

/-- Characters stripped by Python `str.strip()` and matched by regex `\s`
(ASCII subset). -/
def isPySpace (c : Char) : Bool :=
  c = ' ' ∨ c = '\t' ∨ c = '\n' ∨ c = '\x0d' ∨ c = '\x0b' ∨ c = '\x0c'

/-- Regex `\w`: ASCII word character. -/
def isWordChar (c : Char) : Bool :=
  (c ≥ 'a' ∧ c ≤ 'z') ∨ (c ≥ 'A' ∧ c ≤ 'Z') ∨ (c ≥ '0' ∧ c ≤ '9') ∨ c = '_'

/-- Python `str.strip()` on character lists. -/
def pyStripL (l : List Char) : List Char :=
  ((l.dropWhile isPySpace).reverse.dropWhile isPySpace).reverse

/-- Python `str.strip()`. -/
def pyStrip (s : String) : String := String.mk (pyStripL s.data)

/-- Python `str.startswith` on character lists. -/
def startsWithCL : List Char → List Char → Bool
  | _, [] => true
  | [], _ :: _ => false
  | c :: t, d :: u => c = d && startsWithCL t u

/-- Python substring containment `needle in hay` on character lists. -/
def containsSub : List Char → List Char → Bool
  | hay, needle =>
    if startsWithCL hay needle then true
    else match hay with
      | [] => false
      | _ :: t => containsSub t needle

/-- Python `needle in hay` on `String`. -/
def strContains (hay needle : String) : Bool := containsSub hay.data needle.data

/-- Python `str.split('\n')` on character lists: split at every newline,
keeping empty pieces. -/
def splitNLCL : List Char → List (List Char)
  | [] => [[]]
  | c :: t =>
    if c = '\n' then [] :: splitNLCL t
    else match splitNLCL t with
      | [] => [[c]]
      | p :: ps => (c :: p) :: ps

/-- Python `'\n'.join` on character lists. -/
def joinNLCL : List (List Char) → List Char
  | [] => []
  | [p] => p
  | p :: ps => p ++ '\n' :: joinNLCL ps

/-- Python `content.split('\n')` producing `String` lines. -/
def pySplitNL (s : String) : List String := (splitNLCL s.data).map String.mk

/-- Python `'\n'.join(lines)`. -/
def pyJoinNL (lines : List String) : String :=
  String.mk (joinNLCL (lines.map String.data))

/-- Python `str.split()` (whitespace split, no empty pieces) on char lists;
fuel-driven structural recursion (each step consumes at least one character,
so `l.length + 1` fuel always suffices). -/
def splitWSAux : Nat → List Char → List (List Char)
  | 0, _ => []
  | fuel + 1, l =>
    match l.dropWhile isPySpace with
    | [] => []
    | c :: t =>
      (c :: t.takeWhile (fun d => ¬ isPySpace d)) ::
        splitWSAux fuel (t.dropWhile (fun d => ¬ isPySpace d))

/-- Python `str.split()` (whitespace split, no empty pieces) on char lists. -/
def splitWSCL (l : List Char) : List (List Char) :=
  splitWSAux (l.length + 1) l

/-- Python `str.split(sep, 1)[...]`-style single split at the first run of
whitespace: returns the first token and the remainder (itself not stripped of
further whitespace runs beyond the separating one).  Models
`anchor_stripped.split(None, 1)` for inputs known to contain whitespace. -/
def splitWSOnce (l : List Char) : List Char × List Char :=
  let l' := l.dropWhile isPySpace
  let tok := l'.takeWhile (fun d => ¬ isPySpace d)
  let rest := (l'.dropWhile (fun d => ¬ isPySpace d)).dropWhile isPySpace
  (tok, rest)

/-- Python `s.split(sep)[0]`: prefix of `l` before the first occurrence of
character `sep`. -/
def takeUntilChar (sep : Char) (l : List Char) : List Char :=
  l.takeWhile (fun c => c ≠ sep)

/-- Python `s.split('.')[-1]`: suffix after the last `'.'` (the whole string
when no dot occurs). -/
def afterLastDot (l : List Char) : List Char :=
  (l.reverse.takeWhile (fun c => c ≠ '.')).reverse

/-- Python `str.lstrip(':')`. -/
def lstripColon (l : List Char) : List Char :=
  l.dropWhile (fun c => c = ':')

/-- ASCII cased character (Python `str.isupper` looks only at cased chars;
all inputs here are ASCII). -/
def isCasedChar (c : Char) : Bool :=
  (c ≥ 'a' ∧ c ≤ 'z') ∨ (c ≥ 'A' ∧ c ≤ 'Z')

/-- Python `str.isupper()`: at least one cased character and no lowercase
cased character (ASCII subset). -/
def pyIsUpper (l : List Char) : Bool :=
  l.any isCasedChar && l.all (fun c => !isCasedChar c || !(c ≥ 'a' ∧ c ≤ 'z'))

/-! ## SHA-256

Executable model of `hashlib.sha256(...).hexdigest()` used by
`compute_code_hash`.  Words are `Nat` kept below `2 ^ 32` by explicit
masking. -/

/-- The 32-bit mask. -/
def mask32 : Nat := 4294967295

/-- Right rotation of a 32-bit word. -/
def rotr32 (k x : Nat) : Nat :=
  ((x >>> k) ||| (x <<< (32 - k))) &&& mask32

/-- SHA-256 round constants. -/
def sha256K : List Nat :=
  [1116352408, 1899447441, 3049323471, 3921009573, 961987163, 1508970993,
   2453635748, 2870763221, 3624381080, 310598401, 607225278, 1426881987,
   1925078388, 2162078206, 2614888103, 3248222580, 3835390401, 4022224774,
   264347078, 604807628, 770255983, 1249150122, 1555081692, 1996064986,
   2554220882, 2821834349, 2952996808, 3210313671, 3336571891, 3584528711,
   113926993, 338241895, 666307205, 773529912, 1294757372, 1396182291,
   1695183700, 1986661051, 2177026350, 2456956037, 2730485921, 2820302411,
   3259730800, 3345764771, 3516065817, 3600352804, 4094571909, 275423344,
   430227734, 506948616, 659060556, 883997877, 958139571, 1322822218,
   1537002063, 1747873779, 1955562222, 2024104815, 2227730452, 2361852424,
   2428436474, 2756734187, 3204031479, 3329325298]

/-- SHA-256 initial hash state. -/
def sha256H0 : List Nat :=
  [1779033703, 3144134277, 1013904242, 2773480762,
   1359893119, 2600822924, 528734635, 1541459225]

/-- Big-endian byte decomposition of a `Nat`, `n` bytes wide. -/
def natToBytesBE : Nat → Nat → List Nat
  | 0, _ => []
  | k + 1, x => natToBytesBE k (x >>> 8) ++ [x &&& 255]

/-- Combine four big-endian bytes into one 32-bit word. -/
def bytesToWords : List Nat → List Nat
  | b0 :: b1 :: b2 :: b3 :: rest =>
      ((b0 <<< 24) ||| (b1 <<< 16) ||| (b2 <<< 8) ||| b3) :: bytesToWords rest
  | _ => []

/-- SHA-256 padding: append `0x80`, zeros, then the 64-bit big-endian bit
length, reaching a multiple of 64 bytes. -/
def sha256Pad (msg : List Nat) : List Nat :=
  let len := msg.length
  let zeros := (119 - len % 64) % 64
  msg ++ 128 :: List.replicate zeros 0 ++ natToBytesBE 8 (8 * len)

/-- Split the padded byte stream into 64-byte blocks (fuel-driven). -/
def toBlocks : Nat → List Nat → List (List Nat)
  | 0, _ => []
  | _ + 1, [] => []
  | fuel + 1, l => l.take 64 :: toBlocks fuel (l.drop 64)

/-- Message-schedule small sigma 0. -/
def ssig0 (x : Nat) : Nat := rotr32 7 x ^^^ rotr32 18 x ^^^ (x >>> 3)

/-- Message-schedule small sigma 1. -/
def ssig1 (x : Nat) : Nat := rotr32 17 x ^^^ rotr32 19 x ^^^ (x >>> 10)

/-- Extend the 16 block words to 64; `acc` holds the words most recent
first. -/
def schedExtend : Nat → List Nat → List Nat
  | 0, acc => acc
  | k + 1, acc =>
    let w := (acc.getD 15 0 + ssig0 (acc.getD 14 0) + acc.getD 6 0 +
              ssig1 (acc.getD 1 0)) &&& mask32
    schedExtend k (w :: acc)

/-- Full 64-word message schedule of one block. -/
def sha256Schedule (block : List Nat) : List Nat :=
  (schedExtend 48 (bytesToWords block).reverse).reverse

/-- One compression round; the state is `[a, b, c, d, e, f, g, h]`. -/
def sha256Round (st : List Nat) (kw : Nat × Nat) : List Nat :=
  let a := st.getD 0 0
  let b := st.getD 1 0
  let c := st.getD 2 0
  let d := st.getD 3 0
  let e := st.getD 4 0
  let f := st.getD 5 0
  let g := st.getD 6 0
  let h := st.getD 7 0
  let s1 := rotr32 6 e ^^^ rotr32 11 e ^^^ rotr32 25 e
  let ch := (e &&& f) ^^^ ((mask32 ^^^ e) &&& g)
  let t1 := (h + s1 + ch + kw.1 + kw.2) &&& mask32
  let s0 := rotr32 2 a ^^^ rotr32 13 a ^^^ rotr32 22 a
  let mj := (a &&& b) ^^^ (a &&& c) ^^^ (b &&& c)
  let t2 := (s0 + mj) &&& mask32
  [(t1 + t2) &&& mask32, a, b, c, (d + t1) &&& mask32, e, f, g]

/-- Process one 64-byte block. -/
def sha256Block (h : List Nat) (block : List Nat) : List Nat :=
  let st := (sha256K.zip (sha256Schedule block)).foldl sha256Round h
  (h.zip st).map (fun p => (p.1 + p.2) &&& mask32)

/-- SHA-256 over a byte list, producing the eight 32-bit state words. -/
def sha256Words (msg : List Nat) : List Nat :=
  let padded := sha256Pad msg
  (toBlocks padded.length padded).foldl sha256Block sha256H0

/-- Lowercase hexadecimal digit. -/
def hexDigit (n : Nat) : Char :=
  "0123456789abcdef".data.getD n '0'

/-- Fixed-width lowercase hex of a `Nat`. -/
def natToHex : Nat → Nat → List Char
  | 0, _ => []
  | k + 1, x => natToHex k (x >>> 4) ++ [hexDigit (x &&& 15)]

/-- UTF-8 encoding of one character. -/
def utf8Char (c : Char) : List Nat :=
  let n := c.toNat
  if n < 0x80 then [n]
  else if n < 0x800 then
    [0xc0 ||| (n >>> 6), 0x80 ||| (n &&& 0x3f)]
  else if n < 0x10000 then
    [0xe0 ||| (n >>> 12), 0x80 ||| ((n >>> 6) &&& 0x3f), 0x80 ||| (n &&& 0x3f)]
  else
    [0xf0 ||| (n >>> 18), 0x80 ||| ((n >>> 12) &&& 0x3f),
     0x80 ||| ((n >>> 6) &&& 0x3f), 0x80 ||| (n &&& 0x3f)]

/-- UTF-8 encoding of a character list (`str.encode('utf-8')`). -/
def utf8Encode (l : List Char) : List Nat := l.flatMap utf8Char

/-- Python `hashlib.sha256(s.encode('utf-8')).hexdigest()`. -/
def sha256Hex (l : List Char) : List Char :=
  (sha256Words (utf8Encode l)).flatMap (natToHex 8)

/-! ## compute_code_hash (generate_docs.py lines 117-143) -/

/-- The YARD tag markers checked by `compute_code_hash`
(`['@param', '@return', '@example', '@note', '@see', '@yield']`). -/
def yardTags : List (List Char) :=
  ["@param".data, "@return".data, "@example".data, "@note".data,
   "@see".data, "@yield".data]

/-- Per-line keep/drop decision of `compute_code_hash`: a line is dropped when
its stripped form starts with `#` and contains a YARD tag, or starts with
`"# "` and is neither a shebang nor a coding/encoding magic comment (the
shebang test inside that branch is unreachable, kept for fidelity); every
other line is kept verbatim. -/
def keepLineForHash (line : List Char) : Bool :=
  let s := pyStripL line
  if startsWithCL s "#".data && yardTags.any (fun t => containsSub s t) then
    false
  else if startsWithCL s "#".data && decide (s.length > 1) &&
      (s.getD 1 ' ' = ' ') then
    startsWithCL s "#!".data || containsSub s "coding:".data ||
      containsSub s "encoding:".data
  else
    true

/-- The joined "code only" content hashed by `compute_code_hash`. -/
def codeHashContent (content : String) : List Char :=
  joinNLCL ((splitNLCL content.data).filter keepLineForHash)

/-- Model of `Lich5DocumentationGenerator.compute_code_hash`: SHA-256 of the comment
filtered content, truncated to 16 hex characters. -/
def compute_code_hash (content : String) : String :=
  String.mk ((sha256Hex (codeHashContent content)).take 16)

/-! ## Anchor matcher (generate_docs.py lines 411-483)

`soft_match_anchor` builds small regexes from the anchor text.  Each one is
embedded as a dedicated matcher.  `re.search` is modelled by trying the
pattern at every start position while tracking the previous character (for
`\b`).  Greedy `\s*`/`\s+`/`\w+` runs are taken maximally, which is
equivalent here because in every pattern the repetition body and the
following literal draw from disjoint character sets. -/

/-- Regex `\b` between an optional previous and next character. -/
def wordB (p n : Option Char) : Bool :=
  (p.any isWordChar) != (n.any isWordChar)

/-- Try matcher `m` at every position of `s` (model of `re.search`), feeding
it the previous character for `\b` tests. -/
def searchFrom (m : Option Char → List Char → Bool) :
    Option Char → List Char → Bool
  | prev, s =>
    m prev s ||
      match s with
      | [] => false
      | c :: t => searchFrom m (some c) t

/-- Literal `lit` followed by `\b`.  When `lit` is empty the boundary is
tested against `prevIfNil` (the character just before this position). -/
def litThenB (lit : List Char) (prevIfNil : Option Char) (s : List Char) :
    Bool :=
  startsWithCL s lit &&
    wordB (match lit.getLast? with | some c => some c | none => prevIfNil)
      ((s.drop lit.length).head?)

/-- Regex `^\s*{keyword}\s+{re.escape(name)}\b` (class/module anchors). -/
def searchClassPat (kw nm line : List Char) : Bool :=
  let r1 := line.dropWhile isPySpace
  startsWithCL r1 kw &&
    (match r1.drop kw.length with
     | [] => false
     | c :: t => isPySpace c && litThenB nm (some ' ') (t.dropWhile isPySpace))

/-- Matcher for `\bdef\s+` followed by `tail` (the tail receives the last
whitespace character as boundary fallback). -/
def defThen (tail : Option Char → List Char → Bool)
    (prev : Option Char) (s : List Char) : Bool :=
  !(prev.any isWordChar) && startsWithCL s "def".data &&
    (match s.drop 3 with
     | [] => false
     | c :: t => isPySpace c && tail (some ' ') (t.dropWhile isPySpace))

/-- Tail `\w+\.{name}\b` used for `def ClassName.method` anchors. -/
def wordDotTail (nm : List Char) (r : List Char) : Bool :=
  let w := r.takeWhile isWordChar
  !w.isEmpty && litThenB ('.' :: nm) none (r.drop w.length)

/-- Regex `{attr_type}\s+:{re.escape(symbol)}\b` (attr_* anchors),
unanchored. -/
def attrMatcher (attrType sym : List Char) (_p : Option Char)
    (s : List Char) : Bool :=
  startsWithCL s attrType &&
    (match s.drop attrType.length with
     | [] => false
     | c :: t => isPySpace c && litThenB (':' :: sym) none (t.dropWhile isPySpace))

/-- Regex `\b{re.escape(const_name)}\s*=` (constant anchors). -/
def constMatcher (nm : List Char) (p : Option Char) (s : List Char) : Bool :=
  wordB p s.head? && startsWithCL s nm &&
    startsWithCL ((s.drop nm.length).dropWhile isPySpace) "=".data

/-- Regex `{re.escape(var_name)}\s*(=|\|\|=)` (@/@@ variable anchors). -/
def varMatcher (nm : List Char) (_p : Option Char) (s : List Char) : Bool :=
  startsWithCL s nm &&
    (let r := (s.drop nm.length).dropWhile isPySpace
     startsWithCL r "=".data || startsWithCL r "||=".data)

/-- Model of `Lich5DocumentationGenerator.soft_match_anchor`: pattern-based anchor
matching.  (`line_stripped` is computed in the Python but never used; every
branch matches against the raw `line`.) -/
def soft_match_anchor (anchor line : String) : Bool :=
  let a := pyStripL anchor.data
  let l := line.data
  if startsWithCL a "class ".data || startsWithCL a "module ".data then
    -- keyword, name = anchor_stripped.split(None, 1); name = name.split('(')[0].strip()
    let kw := (splitWSOnce a).1
    let nm := pyStripL (takeUntilChar '(' (splitWSOnce a).2)
    searchClassPat kw nm l
  else if startsWithCL a "def ".data then
    let sig := pyStripL (takeUntilChar '(' (a.drop 4))
    if containsSub l ("def ".data ++ sig) then true
    else if containsSub sig "self.".data then
      searchFrom (defThen (fun p r =>
        litThenB ("self.".data ++ afterLastDot sig) p r ||
        litThenB (afterLastDot sig) p r)) none l
    else if sig.any (fun c => c = '.') then
      searchFrom (defThen (fun _ r => wordDotTail (afterLastDot sig) r)) none l
    else
      searchFrom (defThen (fun p r => litThenB sig p r)) none l
  else if startsWithCL a "attr_".data then
    match splitWSCL a with
    | [] => false
    | [attrType] => containsSub l attrType
    | attrType :: sym0 :: _ =>
      searchFrom (attrMatcher attrType (lstripColon sym0)) none l
  else if pyIsUpper (pyStripL (a.filter (fun c => c ≠ '_' ∧ c ≠ '='))) then
    let nm := pyStripL (takeUntilChar '=' a)
    searchFrom (constMatcher nm) none l
  else if startsWithCL a "@".data then
    let varName := pyStripL (takeUntilChar '=' ((splitWSCL a).getD 0 []))
    searchFrom (varMatcher varName) none l
  else
    let tokens := splitWSCL (pyStripL (takeUntilChar '(' a))
    if tokens.isEmpty then false
    else tokens.all (fun t => containsSub l t)

/-! ## Insertion-point resolver (generate_docs.py lines 485-558) -/

/-- Model of `Lich5DocumentationGenerator.find_insertion_line`: bounds check, skip of
already-claimed expected index, exact substring match, soft match, then
search of the ±5 neighbourhood followed by the rest of the file in index
order, skipping claimed indices. -/
def find_insertion_line (lines : List String) (line_number : Int)
    (anchor : String) (inserted : List Nat) : Option Nat :=
  let expected : Int := line_number - 1
  if expected < 0 ∨ (lines.length : Int) ≤ expected then none
  else
    let e := expected.toNat
    if inserted.contains e then none
    else if containsSub (lines.getD e "").data anchor.data then some e
    else if soft_match_anchor anchor (lines.getD e "") then some e
    else
      let offsets := ((List.range 11).map (fun k => (k : Int) - 5)).filter
        (fun o => o ≠ 0)
      let nearby := ((offsets.map (fun o => expected + o)).filter
        (fun i => 0 ≤ i ∧ i < (lines.length : Int))).map Int.toNat
      let rest := (List.range lines.length).filter
        (fun i => i ≠ e ∧ ¬ nearby.contains i)
      (nearby ++ rest).find? (fun i =>
        !(inserted.contains i) && soft_match_anchor anchor (lines.getD i ""))

/-! ## Splicer (generate_docs.py lines 560-626) -/

/-- One insertion entry from the model response.  `line_number = none` models
an absent `line_number` field (`entry.get('line_number')` returning `None`);
`anchor`, `indent` and `comment` carry the values of `entry.get('anchor', '')`,
`entry.get('indent', 0)` and `entry.get('comment', '')`. -/
structure Entry where
  line_number : Option Int := none
  anchor : String := ""
  indent : Nat := 0
  comment : String := ""
deriving DecidableEq, Repr

/-- Sort key of `insert_comments`: `x.get('line_number', 0)`. -/
def sortKey (e : Entry) : Int := e.line_number.getD 0

/-- Stable descending insertion: an element is placed before the first
element whose key is not greater, so earlier entries stay before later
entries with an equal key — exactly the tie behaviour of Python's stable
`sorted(..., reverse=True)`. -/
def insertDesc (x : Entry) : List Entry → List Entry
  | [] => [x]
  | y :: ys => if sortKey x < sortKey y then y :: insertDesc x ys else x :: y :: ys

/-- Stable descending sort by `sortKey`; output agrees with Python's
`sorted(comments, key=..., reverse=True)` because stable sorting has a
unique result. -/
def sortDesc : List Entry → List Entry
  | [] => []
  | x :: xs => insertDesc x (sortDesc xs)

/-- Processing of one sorted entry inside `insert_comments`: skip entries
with falsy `line_number`, empty stripped anchor or empty stripped comment;
resolve; splice the indented comment block before the target line and claim
the index. -/
def processEntry (st : List String × List Nat) (e : Entry) :
    List String × List Nat :=
  let anchor := pyStrip e.anchor
  let commentText := pyStrip e.comment
  match e.line_number with
  | none => st
  | some n =>
    if n = 0 ∨ anchor = "" ∨ commentText = "" then st
    else
      match find_insertion_line st.1 n anchor st.2 with
      | none => st
      | some t =>
        let indentStr := String.mk (List.replicate e.indent ' ')
        let commentLines := (pySplitNL commentText).map
          (fun cl => if pyStrip cl ≠ "" then indentStr ++ cl else "")
        (st.1.take t ++ commentLines ++ st.1.drop t, t :: st.2)

/-- Model of `Lich5DocumentationGenerator.insert_comments`: early return on an empty
batch, split into lines, process entries in stable descending `line_number`
order, join with newlines. -/
def insert_comments (content : String) (comments : List Entry) : String :=
  if comments.isEmpty then content
  else pyJoinNL (((sortDesc comments).foldl processEntry
    (pySplitNL content, [])).1)

/-! ## Escape sanitizer (generate_docs.py lines 351-372) -/

/-- The characters recognised as JSON escapes by the sanitizer's lookahead
class `["\\/bfnrtu]`. -/
def jsonEscapeChar (c : Char) : Bool :=
  c = '"' ∨ c = '\\' ∨ c = '/' ∨ c = 'b' ∨ c = 'f' ∨ c = 'n' ∨ c = 'r' ∨
    c = 't' ∨ c = 'u'

/-- Character-level model of `re.sub(r'\\(?!["\\/bfnrtu])', r'\\\\', text)`:
the engine tries every position, so each backslash is doubled exactly when
the character after it (if any) is not in the lookahead class; a lookahead
does not consume, so the following character is scanned again. -/
def sanitizeCL : List Char → List Char
  | [] => []
  | c :: rest =>
    if c = '\\' then
      match rest with
      | d :: _ =>
        if jsonEscapeChar d then '\\' :: sanitizeCL rest
        else '\\' :: '\\' :: sanitizeCL rest
      | [] => ['\\', '\\']
    else c :: sanitizeCL rest

/-- Model of `Lich5DocumentationGenerator.sanitize_json_escapes`. -/
def sanitize_json_escapes (s : String) : String := String.mk (sanitizeCL s.data)

/-- Every backslash of the text is immediately followed by a character of
the recognised class (so the sanitizer's regex has no match). -/
def allEscOk : List Char → Bool
  | [] => true
  | c :: rest =>
    if c = '\\' then
      match rest with
      | d :: _ => jsonEscapeChar d && allEscOk rest
      | [] => false
    else allEscOk rest

/-! ## JSON values and parser (model of `json.loads`)

`json.loads` of the Python standard library, restricted to what the
pipeline's inputs exercise: the full JSON grammar with strict strings
(unescaped control characters rejected, unknown escapes rejected) and
numbers kept as their lexeme; the non-standard `NaN`/`Infinity` extensions
are not modelled.  Parsing consumes the whole input up to trailing
whitespace, as `json.loads` does. -/

inductive Json where
  | jnull : Json
  | jbool (b : Bool) : Json
  | jnum (lit : String) : Json
  | jstr (s : String) : Json
  | jarr (elems : List Json) : Json
  | jobj (fields : List (String × Json)) : Json

/-- JSON whitespace (`json.decoder` skips exactly space, tab, newline,
carriage return). -/
def jsonWsChar (c : Char) : Bool :=
  c = ' ' ∨ c = '\t' ∨ c = '\n' ∨ c = '\x0d'

/-- Skip JSON whitespace. -/
def skipJWs (l : List Char) : List Char := l.dropWhile jsonWsChar

/-- Hexadecimal digit value. -/
def hexVal (c : Char) : Option Nat :=
  if '0' ≤ c ∧ c ≤ '9' then some (c.toNat - '0'.toNat)
  else if 'a' ≤ c ∧ c ≤ 'f' then some (c.toNat - 'a'.toNat + 10)
  else if 'A' ≤ c ∧ c ≤ 'F' then some (c.toNat - 'A'.toNat + 10)
  else none

/-- Simple JSON string escapes (`\uXXXX` is handled separately). -/
def escChar (c : Char) : Option Char :=
  if c = '"' then some '"'
  else if c = '\\' then some '\\'
  else if c = '/' then some '/'
  else if c = 'b' then some '\x08'
  else if c = 'f' then some '\x0c'
  else if c = 'n' then some '\n'
  else if c = 'r' then some '\x0d'
  else if c = 't' then some '\t'
  else none

/-- Body of a JSON string after the opening quote: decoded characters and
the remainder after the closing quote.  Unknown escapes and raw control
characters make the parse fail (strict mode); `\uXXXX` outside the
surrogate range decodes to the scalar value. -/
def parseStrBody : List Char → Option (List Char × List Char)
  | [] => none
  | '"' :: r => some ([], r)
  | '\\' :: 'u' :: h1 :: h2 :: h3 :: h4 :: r =>
    match hexVal h1, hexVal h2, hexVal h3, hexVal h4 with
    | some v1, some v2, some v3, some v4 =>
      let v := ((v1 * 16 + v2) * 16 + v3) * 16 + v4
      if 0xd800 ≤ v ∧ v < 0xe000 then none
      else (parseStrBody r).map (fun p => (Char.ofNat v :: p.1, p.2))
    | _, _, _, _ => none
  | '\\' :: e :: r =>
    match escChar e with
    | some c => (parseStrBody r).map (fun p => (c :: p.1, p.2))
    | none => none
  | c :: r =>
    if c.toNat < 0x20 then none
    else (parseStrBody r).map (fun p => (c :: p.1, p.2))

/-- One or more decimal digits: the run and the remainder. -/
def digitRun (l : List Char) : Option (List Char × List Char) :=
  let d := l.takeWhile (fun c => '0' ≤ c ∧ c ≤ '9')
  if d.isEmpty then none else some (d, l.drop d.length)

/-- JSON number lexeme: `-? (0 | [1-9][0-9]*) (\.[0-9]+)? ([eE][+-]?[0-9]+)?`. -/
def parseNumber (l : List Char) : Option (List Char × List Char) :=
  let (sign, r1) :=
    match l with
    | '-' :: r => (['-'], r)
    | _ => (([] : List Char), l)
  match r1 with
  | '0' :: r2 =>
    (parseNumTail r2).map (fun p => (sign ++ '0' :: p.1, p.2))
  | c :: _ =>
    if '1' ≤ c ∧ c ≤ '9' then
      match digitRun r1 with
      | some (ds, r2) =>
        (parseNumTail r2).map (fun p => (sign ++ ds ++ p.1, p.2))
      | none => none
    else none
  | [] => none
where
  /-- Optional fraction and exponent. -/
  parseNumTail (l : List Char) : Option (List Char × List Char) :=
    let (fr, r1) :=
      match l with
      | '.' :: r =>
        (match digitRun r with
         | some (ds, r2) => (some ('.' :: ds), r2)
         | none => (none, l))
      | _ => (none, l)
    match fr, r1 with
    | none, '.' :: _ => none
    | _, _ =>
      let frl := fr.getD []
      match r1 with
      | c :: r2 =>
        if c = 'e' ∨ c = 'E' then
          let (sg, r3) :=
            match r2 with
            | '+' :: r => (['+'], r)
            | '-' :: r => (['-'], r)
            | _ => (([] : List Char), r2)
          match digitRun r3 with
          | some (ds, r4) => some (frl ++ c :: sg ++ ds, r4)
          | none => none
        else some (frl, r1)
      | [] => some (frl, r1)

mutual
/-- JSON value at a position with no leading whitespace; fuel-driven
(callers supply fuel exceeding twice the input length, which bounds the
recursion since at least one character is consumed every two calls). -/
def parseVal : Nat → List Char → Option (Json × List Char)
  | 0, _ => none
  | fuel + 1, s =>
    match s with
    | '{' :: r =>
      (match skipJWs r with
       | '}' :: r2 => some (Json.jobj [], r2)
       | s2 => (parseObjRest fuel s2).map (fun p => (Json.jobj p.1, p.2)))
    | '[' :: r =>
      (match skipJWs r with
       | ']' :: r2 => some (Json.jarr [], r2)
       | s2 => (parseArrRest fuel s2).map (fun p => (Json.jarr p.1, p.2)))
    | '"' :: r => (parseStrBody r).map
        (fun p => (Json.jstr (String.mk p.1), p.2))
    | _ =>
      if startsWithCL s "true".data then some (Json.jbool true, s.drop 4)
      else if startsWithCL s "false".data then some (Json.jbool false, s.drop 5)
      else if startsWithCL s "null".data then some (Json.jnull, s.drop 4)
      else (parseNumber s).map (fun p => (Json.jnum (String.mk p.1), p.2))

/-- One array element then `,` more elements or `]` (no trailing comma). -/
def parseArrRest : Nat → List Char → Option (List Json × List Char)
  | 0, _ => none
  | fuel + 1, s =>
    (parseVal fuel s).bind fun p =>
      match skipJWs p.2 with
      | ',' :: r2 => (parseArrRest fuel (skipJWs r2)).map
          (fun q => (p.1 :: q.1, q.2))
      | ']' :: r2 => some ([p.1], r2)
      | _ => none

/-- One `"key": value` member then `,` more members or `}`. -/
def parseObjRest : Nat → List Char → Option (List (String × Json) × List Char)
  | 0, _ => none
  | fuel + 1, s =>
    match s with
    | '"' :: r =>
      (parseStrBody r).bind fun kp =>
        match skipJWs kp.2 with
        | ':' :: r2 =>
          (parseVal fuel (skipJWs r2)).bind fun vp =>
            match skipJWs vp.2 with
            | ',' :: r4 => (parseObjRest fuel (skipJWs r4)).map
                (fun q => ((String.mk kp.1, vp.1) :: q.1, q.2))
            | '}' :: r4 => some ([(String.mk kp.1, vp.1)], r4)
            | _ => none
        | _ => none
    | _ => none
end

/-- Model of `json.loads`: parse one JSON document, requiring only whitespace after
it. -/
def jsonParse (s : String) : Option Json :=
  match parseVal (2 * s.data.length + 4) (skipJWs s.data) with
  | some (v, rest) => if skipJWs rest = [] then some v else none
  | none => none

/-! ## Response text selection and extraction
(generate_docs.py lines 374-409) -/

/-- Characters of `l` before its first `` ``` `` occurrence, or `none` when
there is no occurrence (the enclosing fenced-block match then fails). -/
def takeUntilTriple : List Char → Option (List Char)
  | [] => none
  | c :: t =>
    if startsWithCL (c :: t) "```".data then some []
    else (takeUntilTriple t).map (fun p => c :: p)

/-- First group of `re.findall(r'```json\s*(.*?)```', response, re.DOTALL)`:
the text between the first `` ```json `` that has a closing `` ``` `` and
that closing fence (the greedy `\s*` only moves whitespace out of the
group, which the subsequent `.strip()` removes anyway). -/
def findCodeBlock : List Char → Option (List Char)
  | [] => none
  | c :: t =>
    if startsWithCL (c :: t) "```json".data then
      match takeUntilTriple ((c :: t).drop 7) with
      | some inner => some inner
      | none => findCodeBlock t
    else findCodeBlock t

/-- Length of the lazy `.*?` of `\[\s*\{.*?\}\s*\]`: the least offset at
which a `}` is followed by whitespace and `]`. -/
def spanClose : List Char → Option Nat
  | [] => none
  | c :: t =>
    if (match c :: t with
        | '}' :: r =>
          (match r.dropWhile isPySpace with
           | ']' :: _ => true
           | _ => false)
        | _ => false) then some 0
    else (spanClose t).map (fun n => n + 1)

/-- The `group(0)` of `re.search(r'\[\s*\{.*?\}\s*\]', ..., re.DOTALL)` when the
pattern matches at this exact position. -/
def spanAt (s : List Char) : Option (List Char) :=
  match s with
  | '[' :: r =>
    let nws := (r.takeWhile isPySpace).length
    (match r.drop nws with
     | '{' :: r2 =>
       (spanClose r2).map fun k =>
         let afterBrace := r2.drop (k + 1)
         let mws := (afterBrace.takeWhile isPySpace).length
         '[' :: r.take nws ++ '{' :: r2.take k ++ '}' :: afterBrace.take mws
           ++ [']']
     | _ => none)
  | _ => none

/-- Leftmost match of the array-span regex. -/
def findArraySpan : List Char → Option (List Char)
  | [] => none
  | c :: t =>
    match spanAt (c :: t) with
    | some sp => some sp
    | none => findArraySpan t

/-- Strategy order of `extract_comments_json`: fenced `json` block first,
then the first array-like span, else the whole stripped response. -/
def selectJsonText (response : String) : String :=
  match findCodeBlock response.data with
  | some inner => String.mk (pyStripL inner)
  | none =>
    match findArraySpan response.data with
    | some sp => String.mk sp
    | none => String.mk (pyStripL response.data)

/-- Model of `Lich5DocumentationGenerator.extract_comments_json`: select the JSON
text, sanitize escapes, parse.  A `json.JSONDecodeError` is caught and turned
into the empty list; a successful parse of a non-array raises
`ValueError("Expected JSON array")`, modelled as `Except.error`. -/
def extract_comments_json (response : String) : Except String (List Json) :=
  match jsonParse (sanitize_json_escapes (selectJsonText response)) with
  | none => .ok []
  | some (Json.jarr l) => .ok l
  | some _ => .error "Expected JSON array"

/-- Model of `process_file` lines 322-327 (`if not comments:`) — an empty extraction
result (including a successfully parsed empty array) makes the file be
recorded as failed. -/
def process_file_treats_as_failure (comments : List Json) : Bool :=
  comments.isEmpty

/-- An entry skipped by the `insert_comments` validity guard
(`if not line_number or not anchor or not comment_text`): absent or zero
`line_number`, whitespace-only anchor, or whitespace-only comment. -/
def invalidEntry (e : Entry) : Prop :=
  e.line_number = none ∨ e.line_number = some 0 ∨ pyStrip e.anchor = "" ∨
    pyStrip e.comment = ""

instance (e : Entry) : Decidable (invalidEntry e) := by
  unfold invalidEntry; infer_instance

/-! ## Supporting lemmas -/

theorem splitNLCL_ne_nil (l : List Char) : splitNLCL l ≠ [] := by
  cases l with
  | nil => simp [splitNLCL]
  | cons c t =>
    by_cases hc : c = '\n'
    · simp [splitNLCL, hc]
    · simp only [splitNLCL, if_neg hc]
      cases h : splitNLCL t <;> simp

theorem joinNLCL_splitNLCL (l : List Char) : joinNLCL (splitNLCL l) = l := by
  induction l with
  | nil => rfl
  | cons c t ih =>
    by_cases hc : c = '\n'
    · subst hc
      have hs : splitNLCL ('\n' :: t) = [] :: splitNLCL t := rfl
      rw [hs]
      cases h : splitNLCL t with
      | nil => exact absurd h (splitNLCL_ne_nil t)
      | cons p ps =>
        have h1 : joinNLCL ([] :: p :: ps) = '\n' :: joinNLCL (p :: ps) := rfl
        rw [h1, ← h, ih]
    · simp only [splitNLCL, if_neg hc]
      cases h : splitNLCL t with
      | nil => exact absurd h (splitNLCL_ne_nil t)
      | cons p ps =>
        rw [h] at ih
        cases ps with
        | nil =>
          have h1 : joinNLCL [p] = p := rfl
          rw [h1] at ih
          simp [joinNLCL, ih]
        | cons q qs =>
          have h1 : joinNLCL ((c :: p) :: q :: qs) =
              (c :: p) ++ '\n' :: joinNLCL (q :: qs) := rfl
          have h2 : joinNLCL (p :: q :: qs) = p ++ '\n' :: joinNLCL (q :: qs) := rfl
          rw [h2] at ih
          rw [h1, List.cons_append, ih]

theorem pyJoinNL_pySplitNL (s : String) : pyJoinNL (pySplitNL s) = s := by
  unfold pyJoinNL pySplitNL
  rw [List.map_map]
  have h1 : (splitNLCL s.data).map (String.data ∘ String.mk) =
      (splitNLCL s.data).map id := rfl
  rw [h1, List.map_id, joinNLCL_splitNLCL]

theorem insertDesc_perm (x : Entry) (l : List Entry) :
    List.Perm (insertDesc x l) (x :: l) := by
  induction l with
  | nil => rfl
  | cons y ys ih =>
    by_cases h : sortKey x < sortKey y
    · simp only [insertDesc, if_pos h]
      exact (ih.cons y).trans (List.Perm.swap x y ys)
    · simp only [insertDesc, if_neg h]
      exact List.Perm.refl _

theorem sortDesc_perm (l : List Entry) : List.Perm (sortDesc l) l := by
  induction l with
  | nil => rfl
  | cons x xs ih => exact (insertDesc_perm x (sortDesc xs)).trans (ih.cons x)

theorem insertDesc_pairwise (x : Entry) (l : List Entry)
    (h : l.Pairwise (fun a b => sortKey b ≤ sortKey a)) :
    (insertDesc x l).Pairwise (fun a b => sortKey b ≤ sortKey a) := by
  induction l with
  | nil => simp [insertDesc]
  | cons y ys ih =>
    rcases List.pairwise_cons.mp h with ⟨hy, hys⟩
    by_cases hlt : sortKey x < sortKey y
    · simp only [insertDesc, if_pos hlt]
      refine List.pairwise_cons.mpr ⟨?_, ih hys⟩
      intro z hz
      rcases List.mem_cons.mp ((insertDesc_perm x ys).mem_iff.mp hz) with hz | hz
      · exact hz ▸ le_of_lt hlt
      · exact hy z hz
    · simp only [insertDesc, if_neg hlt]
      refine List.pairwise_cons.mpr ⟨?_, h⟩
      intro z hz
      rcases List.mem_cons.mp hz with hz | hz
      · exact hz ▸ le_of_not_lt hlt
      · exact le_trans (hy z hz) (le_of_not_lt hlt)

theorem sortDesc_pairwise (l : List Entry) :
    (sortDesc l).Pairwise (fun a b => sortKey b ≤ sortKey a) := by
  induction l with
  | nil => simp [sortDesc]
  | cons x xs ih => exact insertDesc_pairwise x (sortDesc xs) ih

theorem eq_of_perm_pairwise_nodupKeys :
    ∀ {l1 l2 : List Entry}, List.Perm l1 l2 →
      l1.Pairwise (fun a b => sortKey b ≤ sortKey a) →
      l2.Pairwise (fun a b => sortKey b ≤ sortKey a) →
      (l1.map sortKey).Nodup → l1 = l2 := by
  intro l1
  induction l1 with
  | nil => intro l2 hp _ _ _; exact (hp.nil_eq).symm ▸ rfl
  | cons a t1 ih =>
    intro l2 hp h1 h2 hn
    cases l2 with
    | nil => exact absurd hp.symm (by simp)
    | cons b t2 =>
      have hab : a = b := by
        by_contra hne
        have ha2 : a ∈ b :: t2 := hp.mem_iff.mp (List.mem_cons_self a t1)
        have hat2 : a ∈ t2 := by
          rcases List.mem_cons.mp ha2 with h | h
          · exact absurd h hne
          · exact h
        have hb1 : b ∈ a :: t1 := hp.symm.mem_iff.mp (List.mem_cons_self b t2)
        have hbt1 : b ∈ t1 := by
          rcases List.mem_cons.mp hb1 with h | h
          · exact absurd h.symm hne
          · exact h
        have hba : sortKey a ≤ sortKey b :=
          (List.pairwise_cons.mp h2).1 a hat2
        have hab' : sortKey b ≤ sortKey a :=
          (List.pairwise_cons.mp h1).1 b hbt1
        have hkey : sortKey b = sortKey a := le_antisymm hab' hba
        have : sortKey a ∈ t1.map sortKey :=
          List.mem_map.mpr ⟨b, hbt1, hkey⟩
        exact (List.nodup_cons.mp hn).1 this
      subst hab
      have ht : List.Perm t1 t2 := hp.cons_inv
      have := ih ht (List.pairwise_cons.mp h1).2 (List.pairwise_cons.mp h2).2
        (List.nodup_cons.mp hn).2
      rw [this]

theorem sortDesc_eq_of_perm (l1 l2 : List Entry) (hp : List.Perm l1 l2)
    (hn : (l1.map sortKey).Nodup) : sortDesc l1 = sortDesc l2 := by
  refine eq_of_perm_pairwise_nodupKeys
    ((sortDesc_perm l1).trans (hp.trans (sortDesc_perm l2).symm))
    (sortDesc_pairwise l1) (sortDesc_pairwise l2) ?_
  exact (hn.perm ((sortDesc_perm l1).map sortKey).symm)

theorem insertDesc_split (x : Entry) (l : List Entry) :
    ∃ A B, insertDesc x l = A ++ x :: B ∧ l = A ++ B := by
  induction l with
  | nil => exact ⟨[], [], rfl, rfl⟩
  | cons y ys ih =>
    by_cases h : sortKey x < sortKey y
    · rcases ih with ⟨A, B, h1, h2⟩
      refine ⟨y :: A, B, ?_, by simp [h2]⟩
      simp [insertDesc, if_pos h, h1]
    · exact ⟨[], y :: ys, by simp [insertDesc, if_neg h], rfl⟩

theorem insertDesc_front (x : Entry) (B : List Entry)
    (hB : ∀ b ∈ B, sortKey b ≤ sortKey x) : insertDesc x B = x :: B := by
  cases B with
  | nil => rfl
  | cons b B' =>
    have : ¬ sortKey x < sortKey b :=
      not_lt_of_le (hB b (List.mem_cons_self b B'))
    simp [insertDesc, if_neg this]

theorem insertDesc_mid (x e : Entry) :
    ∀ (A B : List Entry),
      (A ++ e :: B).Pairwise (fun a b => sortKey b ≤ sortKey a) →
      ∃ A2 B2, insertDesc x (A ++ e :: B) = A2 ++ e :: B2 ∧
        insertDesc x (A ++ B) = A2 ++ B2 := by
  intro A
  induction A with
  | nil =>
    intro B hs
    by_cases h : sortKey x < sortKey e
    · exact ⟨[], insertDesc x B, by simp [insertDesc, if_pos h], rfl⟩
    · refine ⟨[x], B, by simp [insertDesc, if_neg h], ?_⟩
      have hB : ∀ b ∈ B, sortKey b ≤ sortKey x := by
        intro b hb
        exact le_trans ((List.pairwise_cons.mp hs).1 b hb) (le_of_not_lt h)
      simp [insertDesc_front x B hB]
  | cons y A1 ih =>
    intro B hs
    rcases List.pairwise_cons.mp hs with ⟨_, hs1⟩
    by_cases h : sortKey x < sortKey y
    · rcases ih B hs1 with ⟨A2, B2, h1, h2⟩
      refine ⟨y :: A2, B2, ?_, ?_⟩
      · simp [insertDesc, if_pos h, h1]
      · simp [insertDesc, if_pos h, h2]
    · exact ⟨x :: y :: A1, B, by simp [insertDesc, if_neg h],
        by simp [insertDesc, if_neg h]⟩

theorem sortDesc_mid (e : Entry) :
    ∀ (l1 l2 : List Entry),
      ∃ A B, sortDesc (l1 ++ e :: l2) = A ++ e :: B ∧
        sortDesc (l1 ++ l2) = A ++ B := by
  intro l1
  induction l1 with
  | nil =>
    intro l2
    exact insertDesc_split e (sortDesc l2)
  | cons x l1' ih =>
    intro l2
    rcases ih l2 with ⟨A, B, h1, h2⟩
    have hpw : (A ++ e :: B).Pairwise (fun a b => sortKey b ≤ sortKey a) :=
      h1 ▸ sortDesc_pairwise (l1' ++ e :: l2)
    rcases insertDesc_mid x e A B hpw with ⟨A2, B2, h3, h4⟩
    refine ⟨A2, B2, ?_, ?_⟩
    · show insertDesc x (sortDesc (l1' ++ e :: l2)) = A2 ++ e :: B2
      rw [h1, h3]
    · show insertDesc x (sortDesc (l1' ++ l2)) = A2 ++ B2
      rw [h2, h4]

theorem foldl_middle_skip {α β : Type} (f : α → β → α) (e : β)
    (hf : ∀ s, f s e = s) (A B : List β) (s : α) :
    List.foldl f s (A ++ e :: B) = List.foldl f s (A ++ B) := by
  rw [List.foldl_append, List.foldl_append, List.foldl_cons, hf]

theorem processEntry_invalid (e : Entry) (he : invalidEntry e)
    (st : List String × List Nat) : processEntry st e = st := by
  unfold processEntry
  rcases he with h | h | h | h
  · rw [h]
  · rw [h]; simp
  · cases hl : e.line_number with
    | none => rfl
    | some n => simp [h]
  · cases hl : e.line_number with
    | none => rfl
    | some n => simp [h]

/-! ## Claim theorems -/

/-- Claim C10: `insert_comments` silently drops every entry whose
`line_number` is missing or zero, whose anchor strips to the empty string,
or whose comment strips to the empty string — the output for a batch
containing such an entry equals the output for the batch with the entry
removed, and processing the entry leaves the state (lines and claimed
indices) untouched. -/
theorem c10_invalid_entries_dropped (content : String) (l1 l2 : List Entry)
    (e : Entry) (he : invalidEntry e) :
    insert_comments content (l1 ++ e :: l2) = insert_comments content (l1 ++ l2) ∧
    (∀ st, processEntry st e = st) := by
  refine ⟨?_, processEntry_invalid e he⟩
  unfold insert_comments
  by_cases hemp : l1 ++ l2 = []
  · rcases List.append_eq_nil.mp hemp with ⟨h1, h2⟩
    subst h1; subst h2
    have hfold : List.foldl processEntry (pySplitNL content, ([] : List Nat))
        (sortDesc [e]) = (pySplitNL content, []) := by
      have hsd : sortDesc [e] = [e] := rfl
      rw [hsd, List.foldl_cons, processEntry_invalid e he, List.foldl_nil]
    simp only [List.nil_append, List.isEmpty_cons, List.isEmpty_nil]
    rw [if_neg (by simp), hfold]
    exact pyJoinNL_pySplitNL content
  · have hne2 : (l1 ++ l2).isEmpty = false := by
      simpa [List.isEmpty_iff] using hemp
    have hne1 : (l1 ++ e :: l2).isEmpty = false := by
      cases l1 <;> simp
    rw [if_neg (by simp [hne1]), if_neg (by simp [hne2])]
    rcases sortDesc_mid e l1 l2 with ⟨A, B, h1, h2⟩
    rw [h1, h2, foldl_middle_skip processEntry e (processEntry_invalid e he)]

/-- Claim C10 witness: a batch containing an entry with `line_number = 0`
produces the same output as the batch without it. -/
theorem c10_witness :
    insert_comments "x\ny"
      [{ line_number := some 1, anchor := "x", indent := 0, comment := "#g" },
       { line_number := some 0, anchor := "y", indent := 0, comment := "#b" }] =
    insert_comments "x\ny"
      [{ line_number := some 1, anchor := "x", indent := 0, comment := "#g" }] :=
  (c10_invalid_entries_dropped "x\ny"
    [{ line_number := some 1, anchor := "x", indent := 0, comment := "#g" }] []
    { line_number := some 0, anchor := "y", indent := 0, comment := "#b" }
    (by decide)).1

/-- Claim C1 (counterexample): two entries reporting the same
`line_number` whose anchors resolve (against the untouched original, with
no claimed indices) to the distinct target lines 0 and 1; splicing the two
permutations of this batch yields different outputs, because the stable
descending sort keeps the tied entries in input order and the second
processed entry is affected by the first insertion. -/
theorem c1_counterexample :
    find_insertion_line (pySplitNL "alpha\nbeta") 1 "alpha" [] = some 0 ∧
    find_insertion_line (pySplitNL "alpha\nbeta") 1 "beta" [] = some 1 ∧
    insert_comments "alpha\nbeta"
        [{ line_number := some 1, anchor := "alpha", indent := 0, comment := "#A" },
         { line_number := some 1, anchor := "beta", indent := 0, comment := "#B" }] ≠
      insert_comments "alpha\nbeta"
        [{ line_number := some 1, anchor := "beta", indent := 0, comment := "#B" },
         { line_number := some 1, anchor := "alpha", indent := 0, comment := "#A" }] := by
  refine ⟨rfl, rfl, ?_⟩
  decide

/-- Claim C1 as amended: splicing is order-independent whenever the entries'
reported `line_number` sort keys are pairwise distinct — any permutation of
such a batch produces identical output, because the descending sort then
determines a unique processing order. -/
theorem c1_order_independent_distinct_keys (content : String)
    (l1 l2 : List Entry) (hp : List.Perm l1 l2)
    (hn : (l1.map sortKey).Nodup) :
    insert_comments content l1 = insert_comments content l2 := by
  unfold insert_comments
  by_cases h : l1 = []
  · subst h
    have h2 : l2 = [] := hp.nil_eq.symm
    subst h2; rfl
  · have h2 : l2 ≠ [] := by
      intro hc; subst hc; exact h hp.eq_nil
    rw [if_neg (by simp [List.isEmpty_iff, h]),
        if_neg (by simp [List.isEmpty_iff, h2]),
        sortDesc_eq_of_perm l1 l2 hp hn]

/-- Claim C1 witness: a two-entry batch with distinct line numbers spliced
in both orders. -/
theorem c1_witness :
    insert_comments "a\nb"
      [{ line_number := some 1, anchor := "a", indent := 0, comment := "#1" },
       { line_number := some 2, anchor := "b", indent := 0, comment := "#2" }] =
    insert_comments "a\nb"
      [{ line_number := some 2, anchor := "b", indent := 0, comment := "#2" },
       { line_number := some 1, anchor := "a", indent := 0, comment := "#1" }] :=
  c1_order_independent_distinct_keys "a\nb" _ _ (by decide) (by decide)

theorem find_some_spec (lines : List String) (ln : Int) (anchor : String)
    (ins : List Nat) (t : Nat)
    (h : find_insertion_line lines ln anchor ins = some t) :
    0 ≤ ln - 1 ∧ ln - 1 < (lines.length : Int) ∧ t < lines.length ∧
      ins.contains t = false := by
  simp only [find_insertion_line] at h
  by_cases hb : ln - 1 < 0 ∨ (lines.length : Int) ≤ ln - 1
  · rw [if_pos hb] at h; exact absurd h (by simp)
  · rw [if_neg hb] at h
    push_neg at hb
    refine ⟨by omega, hb.2, ?_⟩
    by_cases hc : (ins.contains (ln - 1).toNat : Bool)
    · rw [if_pos hc] at h; exact absurd h (by simp)
    · rw [if_neg hc] at h
      by_cases hx : (containsSub (lines.getD (ln - 1).toNat "").data anchor.data : Bool)
      · rw [if_pos hx] at h
        have ht : (ln - 1).toNat = t := Option.some_injective _ h
        subst ht
        exact ⟨by omega, by simpa using hc⟩
      · rw [if_neg hx] at h
        by_cases hs : (soft_match_anchor anchor (lines.getD (ln - 1).toNat "") : Bool)
        · rw [if_pos hs] at h
          have ht : (ln - 1).toNat = t := Option.some_injective _ h
          subst ht
          exact ⟨by omega, by simpa using hc⟩
        · rw [if_neg hs] at h
          have hp := List.find?_some h
          have hmem := List.mem_of_find?_eq_some h
          rw [Bool.and_eq_true] at hp
          refine ⟨?_, by simpa using hp.1⟩
          rcases List.mem_append.mp hmem with hm | hm
          · rcases List.mem_map.mp hm with ⟨i, hi, hit⟩
            have := of_decide_eq_true (List.mem_filter.mp hi).2
            omega
          · have := List.mem_range.mp (List.mem_filter.mp hm).1
            omega

theorem processEntry_find_none (st : List String × List Nat) (e : Entry)
    (n : Int) (hln : e.line_number = some n)
    (hfind : find_insertion_line st.1 n (pyStrip e.anchor) st.2 = none) :
    processEntry st e = st := by
  simp only [processEntry, hln]
  split
  · rfl
  · rw [hfind]

theorem processEntry_some_shape (st : List String × List Nat) (e : Entry)
    (n : Int) (t : Nat) (hln : e.line_number = some n)
    (hv : ¬(n = 0 ∨ pyStrip e.anchor = "" ∨ pyStrip e.comment = ""))
    (hfind : find_insertion_line st.1 n (pyStrip e.anchor) st.2 = some t) :
    processEntry st e =
      (st.1.take t ++ ((pySplitNL (pyStrip e.comment)).map
          (fun cl => if pyStrip cl ≠ "" then
            String.mk (List.replicate e.indent ' ') ++ cl else "")) ++
        st.1.drop t, t :: st.2) := by
  simp only [processEntry, hln, if_neg hv, hfind]

/-- Claim C2 (counterexample): two identical entries (same anchor
`"def foo"`, same `line_number` 3) are both applied: the first resolves by
drift to index 1 and its insertion shifts the anchor line down, so the
second entry finds the anchor at its expected index 2 (not yet claimed) and
inserts again — the comment line `"#c"` appears twice in the output. -/
theorem c2_counterexample :
    insert_comments "x0\ndef foo\nx2\nx3"
      [{ line_number := some 3, anchor := "def foo", indent := 0, comment := "#c" },
       { line_number := some 3, anchor := "def foo", indent := 0, comment := "#c" }] =
      "x0\n#c\n#c\ndef foo\nx2\nx3" ∧
    (pySplitNL (insert_comments "x0\ndef foo\nx2\nx3"
      [{ line_number := some 3, anchor := "def foo", indent := 0, comment := "#c" },
       { line_number := some 3, anchor := "def foo", indent := 0, comment := "#c" }])).count
      "#c" = 2 := by
  refine ⟨by decide, by decide⟩

/-- Claim C2 as amended: (1) `find_insertion_line` never returns an index
already claimed in the current splice operation, so every applied insertion
claims a fresh index; (2) a duplicated entry is applied at most once
provided resolution lands on its expected index `line_number - 1` (no
drift): the second copy is then skipped because that index is claimed.
(Under drift, an earlier insertion can shift the lines so that both copies
apply — see the counterexample.) -/
theorem c2_uniqueness_and_duplicates :
    (∀ (lines : List String) (ln : Int) (anchor : String) (ins : List Nat)
        (t : Nat), find_insertion_line lines ln anchor ins = some t →
        ins.contains t = false) ∧
    (∀ (content : String) (e : Entry),
        (∀ t, find_insertion_line (pySplitNL content) (sortKey e)
            (pyStrip e.anchor) [] = some t → (t : Int) = sortKey e - 1) →
        insert_comments content [e, e] = insert_comments content [e]) := by
  constructor
  · intro lines ln anchor ins t h
    exact (find_some_spec lines ln anchor ins t h).2.2.2
  · intro content e hnd
    have hsort2 : sortDesc [e, e] = [e, e] := by
      show insertDesc e (insertDesc e []) = [e, e]
      show insertDesc e [e] = [e, e]
      simp [insertDesc, lt_irrefl]
    have hsort1 : sortDesc [e] = [e] := rfl
    unfold insert_comments
    rw [if_neg (by simp), if_neg (by simp), hsort2, hsort1]
    simp only [List.foldl_cons, List.foldl_nil]
    suffices hsuf : processEntry
        (processEntry (pySplitNL content, []) e) e =
        processEntry (pySplitNL content, []) e by rw [hsuf]
    cases hln : e.line_number with
    | none => simp [processEntry, hln]
    | some n =>
      have hkey : sortKey e = n := by simp [sortKey, hln]
      rw [hkey] at hnd
      by_cases hv : n = 0 ∨ pyStrip e.anchor = "" ∨ pyStrip e.comment = ""
      · have h1 : processEntry (pySplitNL content, []) e =
            (pySplitNL content, []) := by
          simp only [processEntry, hln, if_pos hv]
        simp only [h1]
      · cases hfind : find_insertion_line (pySplitNL content) n
            (pyStrip e.anchor) [] with
        | none =>
          have h1 : processEntry (pySplitNL content, []) e =
              (pySplitNL content, []) :=
            processEntry_find_none _ e n hln hfind
          simp only [h1]
        | some t =>
          have ht := hnd t hfind
          obtain ⟨hge, hlt, htlen, -⟩ :=
            find_some_spec (pySplitNL content) n (pyStrip e.anchor) [] t hfind
          have h1 := processEntry_some_shape (pySplitNL content, []) e n t
            hln hv hfind
          rw [h1]
          set K := (pySplitNL (pyStrip e.comment)).map
            (fun cl => if pyStrip cl ≠ "" then
              String.mk (List.replicate e.indent ' ') ++ cl else "") with hK
          set L' := (pySplitNL content).take t ++ K ++
            (pySplitNL content).drop t with hL
          have hlen' : (pySplitNL content).length ≤ L'.length := by
            rw [hL]
            simp only [List.length_append, List.length_take, List.length_drop]
            omega
          have hfind2 : find_insertion_line L' n (pyStrip e.anchor) [t] =
              none := by
            simp only [find_insertion_line]
            rw [if_neg (by push_neg; constructor <;> omega)]
            have htoNat : (n - 1).toNat = t := by omega
            rw [htoNat, if_pos (by simp)]
          exact processEntry_find_none (L', t :: [] ) e n hln hfind2

/-- Claim C2 witness: instantiation of both amended statements — a resolver
call on a concrete claimed list, and a duplicate entry that resolves at its
expected index and is applied once. -/
theorem c2_witness :
    ([3] : List Nat).contains 0 = false ∧
    insert_comments "a\nb"
      [{ line_number := some 1, anchor := "a", indent := 0, comment := "#c" },
       { line_number := some 1, anchor := "a", indent := 0, comment := "#c" }] =
    insert_comments "a\nb"
      [{ line_number := some 1, anchor := "a", indent := 0, comment := "#c" }] :=
  ⟨c2_uniqueness_and_duplicates.1 (pySplitNL "a\nb") 1 "a" [3] 0 (by decide),
   c2_uniqueness_and_duplicates.2 "a\nb"
     { line_number := some 1, anchor := "a", indent := 0, comment := "#c" }
     (by decide)⟩

/-- Claim C3 (counterexample): a response that parses as a JSON object (so
no strategy yields an array) makes `extract_comments_json` raise
`ValueError("Expected JSON array")` — modelled as `Except.error` — instead
of returning the no-entries failure signal: only `json.JSONDecodeError` is
caught by the function. -/
theorem c3_counterexample :
    extract_comments_json "\x7b\"a\": 1\x7d" =
      Except.error "Expected JSON array" ∧
    jsonParse (sanitize_json_escapes (selectJsonText "\x7b\"a\": 1\x7d")) =
      some (Json.jobj [("a", Json.jnum "1")]) :=
  ⟨rfl, rfl⟩

/-- Claim C3 as amended: when the selected text does not decode as JSON at
all, `extract_comments_json` returns the empty entry list without raising;
the bare input `"[]"` extracts successfully to the empty list; but
`process_file` treats an empty entry list as a failure (`if not comments:`),
marking the file failed rather than "nothing to document". -/
theorem c3_failure_semantics :
    (∀ r : String,
        jsonParse (sanitize_json_escapes (selectJsonText r)) = none →
        extract_comments_json r = Except.ok []) ∧
    extract_comments_json "[]" = Except.ok [] ∧
    process_file_treats_as_failure [] = true := by
  refine ⟨?_, rfl, rfl⟩
  intro r h
  unfold extract_comments_json
  rw [h]

/-- Claim C3 witness: a plain-prose response decodes as nothing and yields
the empty-list failure signal. -/
theorem c3_witness :
    extract_comments_json "This is not JSON at all, just random text." =
      Except.ok [] :=
  c3_failure_semantics.1 "This is not JSON at all, just random text." rfl

/-- Claim C4 (code evaluation at the failing inputs): `compute_code_hash`
drops `"# rubocop:disable ..."` and `"# frozen_string_literal: true"` lines
(any `"# "`-prefixed comment without a `coding:`/`encoding:` substring), so
adding such a directive line leaves the fingerprint unchanged, while
shebang and encoding lines do change it.  The repo's own tests
(`test_rubocop_directive_preserved`, `test_frozen_string_literal_preserved`)
assert the first two hashes must differ. -/
theorem c4_directive_lines_excluded :
    compute_code_hash "# rubocop:disable Style/All\nclass Test\nend" =
      compute_code_hash "class Test\nend" ∧
    compute_code_hash "# frozen_string_literal: true\nclass Test\nend" =
      compute_code_hash "class Test\nend" ∧
    compute_code_hash "#!/usr/bin/env ruby\nclass Test\nend" ≠
      compute_code_hash "class Test\nend" ∧
    compute_code_hash "# encoding: utf-8\nclass Test\nend" ≠
      compute_code_hash "class Test\nend" := by
  exact ⟨rfl, rfl, by decide, by decide⟩

/-- Claim C5 (code evaluation at the failing input): `extract_comments_json`
contains no concatenation-cleanup pass, so a response whose `comment` value
is written as `"# a" + "b"` fails to parse and extraction returns the empty
(failure) result; the same response with a single string literal parses
fine.  The repo's tests call a `clean_json_concatenation` method that does
not exist in the class. -/
theorem c5_no_concatenation_cleanup :
    extract_comments_json
      "[\x7b\"line_number\": 1, \"anchor\": \"class Test\", \"indent\": 0, \"comment\": \"# a\" + \"b\"\x7d]" =
      Except.ok [] ∧
    extract_comments_json
      "[\x7b\"line_number\": 1, \"anchor\": \"class Test\", \"indent\": 0, \"comment\": \"# ab\"\x7d]" =
      Except.ok [Json.jobj [("line_number", Json.jnum "1"),
        ("anchor", Json.jstr "class Test"), ("indent", Json.jnum "0"),
        ("comment", Json.jstr "# ab")]] :=
  ⟨rfl, rfl⟩

/-- Claim C7: the fingerprint of `"def f\n  1\nend"` equals that of the same
code with a prepended `"# @return [Integer]"` line, and the variant with
`1` changed to `2` has a different fingerprint from both. -/
theorem c7_fingerprint_stability :
    compute_code_hash "def f\n  1\nend" =
      compute_code_hash "# @return [Integer]\ndef f\n  1\nend" ∧
    compute_code_hash "def f\n  1\nend" ≠
      compute_code_hash "def f\n  2\nend" ∧
    compute_code_hash "# @return [Integer]\ndef f\n  1\nend" ≠
      compute_code_hash "def f\n  2\nend" := by
  exact ⟨rfl, by decide, by decide⟩

/-- Claim C8: the anchor-match truth table — class anchor vs. inheritance
clause, method anchor vs. different method, receiver-qualified method with
an argument list, and constant anchor vs. assignment line. -/
theorem c8_anchor_truth_table :
    soft_match_anchor "class Foo" "class Foo < Bar" = true ∧
    soft_match_anchor "def bar" "def other" = false ∧
    soft_match_anchor "def self.create" "def self.create(name)" = true ∧
    soft_match_anchor "CONST" "CONST = 1" = true :=
  ⟨rfl, rfl, rfl, rfl⟩

/-- Claim C9 (counterexample): the JSON text `"\\d"` (a string literal
holding an escaped backslash followed by `d`) contains only the recognised
escape `\\`, yet sanitization is not the identity on it: the second
backslash of the pair is itself followed by `d`, so the per-character regex
doubles it, turning valid JSON into unparseable text. -/
theorem c9_counterexample :
    sanitize_json_escapes "\"\\\\d\"" ≠ "\"\\\\d\"" ∧
    jsonParse "\"\\\\d\"" = some (Json.jstr "\\d") ∧
    jsonParse (sanitize_json_escapes "\"\\\\d\"") = none := by
  exact ⟨by decide, rfl, rfl⟩

theorem sanitizeCL_cons_ne (c : Char) (rest : List Char) (hc : c ≠ '\\') :
    sanitizeCL (c :: rest) = c :: sanitizeCL rest := by
  simp [sanitizeCL, hc]

theorem allEscOk_cons_ne (c : Char) (rest : List Char) (hc : c ≠ '\\') :
    allEscOk (c :: rest) = allEscOk rest := by
  simp [allEscOk, hc]

theorem sanitizeCL_eq_self_iff (l : List Char) :
    sanitizeCL l = l ↔ allEscOk l = true := by
  induction l with
  | nil => simp [sanitizeCL, allEscOk]
  | cons c rest ih =>
    by_cases hc : c = '\\'
    · subst hc
      cases rest with
      | nil => simp [sanitizeCL, allEscOk]
      | cons d rest2 =>
        by_cases hd : jsonEscapeChar d
        · have h1 : sanitizeCL ('\\' :: d :: rest2) =
              '\\' :: sanitizeCL (d :: rest2) := by
            simp [sanitizeCL, hd]
          have h2 : allEscOk ('\\' :: d :: rest2) =
              (jsonEscapeChar d && allEscOk (d :: rest2)) := rfl
          rw [h1, h2, hd]
          simpa using ih
        · have h1 : sanitizeCL ('\\' :: d :: rest2) =
              '\\' :: '\\' :: sanitizeCL (d :: rest2) := by
            simp [sanitizeCL, hd]
          have h2 : allEscOk ('\\' :: d :: rest2) =
              (jsonEscapeChar d && allEscOk (d :: rest2)) := rfl
          rw [h1, h2]
          have hdne : d ≠ '\\' := by
            intro hcontra; subst hcontra
            simp [jsonEscapeChar] at hd
          constructor
          · intro h
            injection h with _ h2
            injection h2 with h3 _
            exact absurd h3.symm hdne
          · intro h
            rw [Bool.and_eq_true] at h
            exact absurd h.1 (by simpa using hd)
    · rw [sanitizeCL_cons_ne c rest hc, allEscOk_cons_ne c rest hc]
      constructor
      · intro h
        injection h with _ h2
        exact ih.mp h2
      · intro h
        rw [ih.mpr h]

/-- Claim C9 as amended: sanitization is the identity exactly on texts in
which every backslash (scanned per character, without regard to escape
pairing) is immediately followed by one of the recognised characters
`" \\ / b f n r t u`; a regex-like `\d` inside a JSON string is doubled so
the text parses to the literal two-character value, matching the claim's
repair behaviour — but a text containing the recognised escape `\\`
followed by `d` is altered, so identity does not hold for all texts
containing only recognised escapes. -/
theorem c9_sanitize_characterization :
    (∀ s : String, sanitize_json_escapes s = s ↔ allEscOk s.data = true) ∧
    sanitize_json_escapes "\x7b\"p\": \"\\d\"\x7d" =
      "\x7b\"p\": \"\\\\d\"\x7d" ∧
    jsonParse (sanitize_json_escapes "\x7b\"p\": \"\\d\"\x7d") =
      some (Json.jobj [("p", Json.jstr "\\d")]) ∧
    jsonParse "\x7b\"p\": \"\\d\"\x7d" = none := by
  refine ⟨?_, rfl, rfl, rfl⟩
  intro s
  unfold sanitize_json_escapes
  rw [← sanitizeCL_eq_self_iff]
  constructor
  · intro h
    have := congrArg String.data h
    simpa using this
  · intro h
    rw [h]

/-- Claim C9 witness: a text whose backslashes are all recognised escapes is
unchanged by sanitization. -/
theorem c9_witness :
    sanitize_json_escapes "\"abc\\n\"" = "\"abc\\n\"" :=
  (c9_sanitize_characterization.1 "\"abc\\n\"").mpr (by decide)

/-- Claim C6: in a 20-line file whose line 15 (0-indexed 14) contains
`def target_method` — with the expected line 3, its neighbourhood and all
earlier lines not matching — resolving an entry reporting `line_number = 3`
with anchor `"def target_method"` and no claimed indices returns index 14,
reached by the full-file fallback search after the expected line and the ±5
neighbourhood fail. -/
theorem c6_resolver_drift (lines : List String)
    (hlen : lines.length = 20)
    (hexact : containsSub (lines.getD 2 "").data "def target_method".data = false)
    (hmiss : ∀ i, i < 14 →
      soft_match_anchor "def target_method" (lines.getD i "") = false)
    (hhit : containsSub (lines.getD 14 "").data "def target_method".data = true) :
    find_insertion_line lines 3 "def target_method" [] = some 14 := by
  have hred : ∀ line : String, soft_match_anchor "def target_method" line =
      (if containsSub line.data "def target_method".data then true
       else searchFrom (defThen (fun p r => litThenB "target_method".data p r))
         none line.data) := fun _ => rfl
  have hsoft14 : soft_match_anchor "def target_method" (lines.getD 14 "") =
      true := by
    rw [hred, hhit]
    rfl
  simp only [find_insertion_line]
  rw [hlen]
  rw [if_neg (by decide)]
  have hidx : ((3 : Int) - 1).toNat = 2 := rfl
  rw [hidx, if_neg (by decide), if_neg (by simp only [hexact]; decide),
      if_neg (by simp only [hmiss 2 (by norm_num)]; decide)]
  have horder : List.find? (fun i =>
      !(List.contains ([] : List Nat) i) &&
        soft_match_anchor "def target_method" (lines.getD i ""))
      [0, 1, 3, 4, 5, 6, 7, 8, 9, 10, 11, 12, 13, 14, 15, 16, 17, 18, 19] =
      some 14 := by
    rw [List.find?_cons_of_neg _ (by simp only [hmiss 0 (by norm_num)]; decide),
        List.find?_cons_of_neg _ (by simp only [hmiss 1 (by norm_num)]; decide),
        List.find?_cons_of_neg _ (by simp only [hmiss 3 (by norm_num)]; decide),
        List.find?_cons_of_neg _ (by simp only [hmiss 4 (by norm_num)]; decide),
        List.find?_cons_of_neg _ (by simp only [hmiss 5 (by norm_num)]; decide),
        List.find?_cons_of_neg _ (by simp only [hmiss 6 (by norm_num)]; decide),
        List.find?_cons_of_neg _ (by simp only [hmiss 7 (by norm_num)]; decide),
        List.find?_cons_of_neg _ (by simp only [hmiss 8 (by norm_num)]; decide),
        List.find?_cons_of_neg _ (by simp only [hmiss 9 (by norm_num)]; decide),
        List.find?_cons_of_neg _ (by simp only [hmiss 10 (by norm_num)]; decide),
        List.find?_cons_of_neg _ (by simp only [hmiss 11 (by norm_num)]; decide),
        List.find?_cons_of_neg _ (by simp only [hmiss 12 (by norm_num)]; decide),
        List.find?_cons_of_neg _ (by simp only [hmiss 13 (by norm_num)]; decide),
        List.find?_cons_of_pos _ (by simp only [hsoft14]; decide)]
  have happ : ([0, 1, 3, 4, 5, 6, 7] : List Nat) ++
      [8, 9, 10, 11, 12, 13, 14, 15, 16, 17, 18, 19] =
      [0, 1, 3, 4, 5, 6, 7, 8, 9, 10, 11, 12, 13, 14, 15, 16, 17, 18, 19] :=
    rfl
  exact happ ▸ horder

/-- Claim C6 witness: the concrete 20-line file with filler lines and
`def target_method` at line 15. -/
theorem c6_witness :
    find_insertion_line
      ["line1", "line2", "line3", "line4", "line5", "line6", "line7",
       "line8", "line9", "line10", "line11", "line12", "line13", "line14",
       "def target_method", "line16", "line17", "line18", "line19",
       "line20"] 3 "def target_method" [] = some 14 :=
  c6_resolver_drift _ rfl (by decide) (by decide) (by decide)

end Lich5
